import Mathlib

set_option maxRecDepth 10000
set_option maxHeartbeats 1000000

/-!
Shallow embedding of `src/sdelay.py` (class `SoftDelay`), a generator of
PicoBlaze software-delay loops.

Modelling conventions:
* Python numbers (clock speed in MHz, delay in seconds, the float results of
  the divisions) are embedded as exact rationals `ℚ`; instruction counts are
  `ℕ`, register initial values are `ℤ` (Python ints, which the source lets go
  negative).
* The two unbounded `while` loops of the source (`register_count` and
  `set_outer_loops`) are embedded with explicit fuel.  For `register_count`
  the fuel `⌈dummy_i⌉ + 1` always dominates the loop's exit point, so the
  function is total and agrees with the source wherever the source
  terminates.  For `set_outer_loops` the source loop genuinely diverges for
  some inputs (e.g. negative clock speed), so the embedding returns
  `Option SoftDelay`, with `none` standing for non-termination of the
  source; sufficiency of the fuel on terminating inputs is proved below
  (`setOuterLoopsAux_isSome`).
* The header comment interpolates Python floats; their decimal rendering is
  abstracted by the exact rendering `ratRepr` (num/den).  No claim inspects
  the rendered digits.
-/

structure SoftDelay where
  clk_speed : ℚ
  cycles_per_instr : ℕ
  delay_time : ℚ
  outer_loops : ℕ
deriving DecidableEq

/-- `SoftDelay.__init__` (src/sdelay.py:13-19).  Note: the
`cycles_per_instr` argument is discarded and the field is hardcoded to 2,
exactly as in the source (`self.cycles_per_instr = 2`). -/
def SoftDelay.init (clk_speed : ℚ) (cycles_per_instr : ℕ) (delay_time : ℚ) : SoftDelay :=
  { clk_speed := clk_speed
    cycles_per_instr := 2
    delay_time := delay_time
    outer_loops := 1 }

/-- `SoftDelay.dummy_i` (src/sdelay.py:21-31):
`(clk_speed * 10**6) / cycles_per_instr * delay_time`. -/
def SoftDelay.dummy_i (sd : SoftDelay) : ℚ :=
  (sd.clk_speed * 10 ^ 6) / (sd.cycles_per_instr : ℚ) * sd.delay_time

/-- The `while` loop of `SoftDelay.register_count` (src/sdelay.py:47-50):
`registers = 1; while dummy_i / 2**(registers-1) > 256**registers: registers += 1`.
Fuel-bounded; the fuel used in `SoftDelay.register_count` always suffices. -/
def registerLoop (d : ℚ) : ℕ → ℕ → ℕ
  | 0, r => r
  | fuel + 1, r =>
    if (256 : ℚ) ^ r < d / 2 ^ (r - 1) then registerLoop d fuel (r + 1) else r

/-- `SoftDelay.register_count` (src/sdelay.py:33-52). -/
def SoftDelay.register_count (sd : SoftDelay) : ℕ :=
  registerLoop sd.dummy_i ((Int.ceil sd.dummy_i).toNat + 1) 1

/-- `SoftDelay.register_array` (src/sdelay.py:54-68): a list of
`register_count` zeros whose last entry is set to `256 - outer_loops`
(`registers[-1] = 256 - self.outer_loops`), as a Python int, i.e. `ℤ`. -/
def SoftDelay.register_array (sd : SoftDelay) : List ℤ :=
  let registers := List.replicate sd.register_count (0 : ℤ)
  registers.set (registers.length - 1) (256 - (sd.outer_loops : ℤ))

/-- `SoftDelay.actual_i` (src/sdelay.py:70-86): register initialisation,
plus the inner increment/branch pairs times the outer loop, plus the outer
register's own increment/branch. -/
def SoftDelay.actual_i (sd : SoftDelay) : ℕ :=
  sd.register_count
    + 256 ^ (sd.register_count - 1) * 2 * sd.outer_loops
    + sd.outer_loops * 2

/-- `SoftDelay.actual_cycles` (src/sdelay.py:88-90). -/
def SoftDelay.actual_cycles (sd : SoftDelay) : ℕ :=
  sd.actual_i * sd.cycles_per_instr

/-- `SoftDelay.actual_time` (src/sdelay.py:92-94):
`float(actual_cycles) / (clk_speed * 10**6)`. -/
def SoftDelay.actual_time (sd : SoftDelay) : ℚ :=
  (sd.actual_cycles : ℚ) / (sd.clk_speed * 10 ^ 6)

/-- The `while` loop of `SoftDelay.set_outer_loops` (src/sdelay.py:96-102):
`while actual_time < delay_time: outer_loops += 1`.  Fuel-bounded; `none`
models non-termination of the source loop. -/
def setOuterLoopsAux : ℕ → SoftDelay → Option SoftDelay
  | 0, sd =>
    if sd.actual_time < sd.delay_time then none else some sd
  | fuel + 1, sd =>
    if sd.actual_time < sd.delay_time then
      setOuterLoopsAux fuel { sd with outer_loops := sd.outer_loops + 1 }
    else some sd

/-- Fuel for `set_outer_loops`; dominates the exit point of the source loop
whenever the clock speed is positive (proved in `setOuterLoopsAux_isSome`
and `sdelay_never_under_delays`). -/
def SoftDelay.searchFuel (sd : SoftDelay) : ℕ :=
  (Int.ceil (sd.delay_time * sd.clk_speed * 10 ^ 6 / 4)).toNat + 1

/-- `SoftDelay.set_outer_loops` (src/sdelay.py:96-102). -/
def SoftDelay.set_outer_loops (sd : SoftDelay) : Option SoftDelay :=
  setOuterLoopsAux sd.searchFuel sd

/-- Lowercase hexadecimal digit for `n < 16`, as produced by Python's
`{:x}` / `{:#x}` format conversions. -/
def hexDigitChar (n : ℕ) : Char :=
  if n < 10 then Char.ofNat (48 + n) else Char.ofNat (87 + n)

/-- Digits of `n` in base 16, most significant first, minimal width
(`natToHexAux (n+1) n` never exhausts its fuel since `n / 16 < n`). -/
def natToHexAux : ℕ → ℕ → List Char
  | 0, _ => []
  | fuel + 1, n =>
    if n < 16 then [hexDigitChar n]
    else natToHexAux fuel (n / 16) ++ [hexDigitChar (n % 16)]

/-- Python's `{0:x}` of a nonnegative int: minimal-width lowercase hex. -/
def natToHex (n : ℕ) : String :=
  ⟨natToHexAux (n + 1) n⟩

/-- Python's `{1:#x}` of an int: `0x`-prefixed minimal-width lowercase hex,
with a leading minus sign for negative values (e.g. `-50 ↦ "-0x32"`). -/
def pyHex (v : ℤ) : String :=
  if v < 0 then "-0x" ++ natToHex v.natAbs else "0x" ++ natToHex v.toNat

/-- Exact rendering of a rational, standing in for Python's float
rendering inside the header comment (see module docstring). -/
def ratRepr (q : ℚ) : String :=
  toString q.num ++ "/" ++ toString q.den

/-- The header comment of `SoftDelay.generate` (src/sdelay.py:126-135). -/
def SoftDelay.header (sd : SoftDelay) : String :=
  "; The following code block is a software delay loop that delays\n; for approximately "
    ++ ratRepr sd.delay_time
    ++ " seconds on a "
    ++ ratRepr sd.clk_speed
    ++ "MHz picoblaze, where each instruction\n; takes "
    ++ toString sd.cycles_per_instr
    ++ " clock cycles. Exactly "
    ++ toString sd.actual_i
    ++ " instructions will be executed, taking\n; "
    ++ toString sd.actual_cycles
    ++ " clock cycles. The exact time delay should be "
    ++ ratRepr sd.actual_time
    ++ " seconds.\n"

/-- One register-load line of `SoftDelay.generate` (src/sdelay.py:138-139):
`"LOAD S{0:x}, {1:#x}\n".format(i, register_array[i])`. -/
def loadLine (i : ℕ) (v : ℤ) : String :=
  "LOAD S" ++ natToHex i ++ ", " ++ pyHex v ++ "\n"

/-- One increment/branch pair of `SoftDelay.generate` (src/sdelay.py:146-148). -/
def incrLines (i : ℕ) : String :=
  "    ADD S" ++ natToHex i ++ ", 0x01\n" ++ "    JUMP NZ, loop\n"

/-- `SoftDelay.generate` (src/sdelay.py:104-150): runs `set_outer_loops`
(mutating `self`), then renders header, register loads, label and
increment/branch pairs.  `none` models non-termination of the search. -/
def SoftDelay.generate (sd : SoftDelay) : Option String :=
  match sd.set_outer_loops with
  | none => none
  | some sd2 =>
    let out := sd2.header
    let out := out ++ String.join
      ((List.range sd2.register_array.length).map
        (fun i => loadLine i (sd2.register_array.getD i 0)))
    let out := out ++ "\n" ++ "loop:\n"
    let out := out ++ String.join
      ((List.range sd2.register_array.length).map (fun i => incrLines i))
    some out

/-- Split a character list at newlines (used to state line-level claims
about the emitted text). -/
def splitNlAux : List Char → List Char → List (List Char)
  | [], acc => [acc.reverse]
  | c :: rest, acc =>
    if c = '\n' then acc.reverse :: splitNlAux rest []
    else splitNlAux rest (c :: acc)

/-- The lines of the emitted text. -/
def textLines (s : String) : List (List Char) :=
  splitNlAux s.data []

/-- A register-load line. -/
def isLoadLine (l : List Char) : Bool :=
  l.take 5 == ("LOAD ").data

/-- The loop label line. -/
def isLabelLine (l : List Char) : Bool :=
  l == ("loop:").data

/-- An increment or branch instruction line. -/
def isInstrLine (l : List Char) : Bool :=
  l.take 7 == ("    ADD").data || l.take 8 == ("    JUMP").data

/-- The sixteen lowercase hexadecimal digit characters: `0`-`9` (codes
48-57) followed by `a`-`f` (codes 97-102). -/
def hexDigits : List Char :=
  (List.range 10).map (fun n => Char.ofNat (48 + n))
    ++ (List.range 6).map (fun n => Char.ofNat (97 + n))

/-! ### General lemmas about the outer-loop search -/

/-- A successful search only changes the `outer_loops` field, and never
decreases it. -/
lemma setOuterLoopsAux_some_shape :
    ∀ (fuel : ℕ) (sd sd' : SoftDelay), setOuterLoopsAux fuel sd = some sd' →
      sd' = { sd with outer_loops := sd'.outer_loops } ∧
        sd.outer_loops ≤ sd'.outer_loops := by
  intro fuel
  induction fuel with
  | zero =>
    intro sd sd' h
    rw [setOuterLoopsAux] at h
    by_cases hc : sd.actual_time < sd.delay_time
    · rw [if_pos hc] at h; exact Option.noConfusion h
    · rw [if_neg hc] at h; cases h; exact ⟨rfl, le_refl _⟩
  | succ f ih =>
    intro sd sd' h
    rw [setOuterLoopsAux] at h
    by_cases hc : sd.actual_time < sd.delay_time
    · rw [if_pos hc] at h
      obtain ⟨h1, h2⟩ := ih _ _ h
      exact ⟨h1, le_trans (Nat.le_succ _) h2⟩
    · rw [if_neg hc] at h; cases h; exact ⟨rfl, le_refl _⟩

/-- When the search returns, the exit condition of the `while` loop holds:
the exact elapsed time has reached the requested delay. -/
lemma setOuterLoopsAux_some_delay :
    ∀ (fuel : ℕ) (sd sd' : SoftDelay), setOuterLoopsAux fuel sd = some sd' →
      sd.delay_time ≤ sd'.actual_time := by
  intro fuel
  induction fuel with
  | zero =>
    intro sd sd' h
    rw [setOuterLoopsAux] at h
    by_cases hc : sd.actual_time < sd.delay_time
    · rw [if_pos hc] at h; exact Option.noConfusion h
    · rw [if_neg hc] at h; cases h; exact le_of_not_lt hc
  | succ f ih =>
    intro sd sd' h
    rw [setOuterLoopsAux] at h
    by_cases hc : sd.actual_time < sd.delay_time
    · rw [if_pos hc] at h
      exact ih { sd with outer_loops := sd.outer_loops + 1 } sd' h
    · rw [if_neg hc] at h; cases h; exact le_of_not_lt hc

/-- Every outer-loop count strictly below the returned one fails the exit
condition (the linear search skips no candidate). -/
lemma setOuterLoopsAux_some_min :
    ∀ (fuel : ℕ) (sd sd' : SoftDelay), setOuterLoopsAux fuel sd = some sd' →
      ∀ k, sd.outer_loops ≤ k → k < sd'.outer_loops →
        ({ sd with outer_loops := k }).actual_time < sd.delay_time := by
  intro fuel
  induction fuel with
  | zero =>
    intro sd sd' h
    rw [setOuterLoopsAux] at h
    by_cases hc : sd.actual_time < sd.delay_time
    · rw [if_pos hc] at h; exact Option.noConfusion h
    · rw [if_neg hc] at h; cases h
      intro k hk1 hk2; omega
  | succ f ih =>
    intro sd sd' h
    rw [setOuterLoopsAux] at h
    by_cases hc : sd.actual_time < sd.delay_time
    · rw [if_pos hc] at h
      intro k hk1 hk2
      rcases Nat.eq_or_lt_of_le hk1 with he | hlt
      · subst he; exact hc
      · exact ih _ _ h k hlt hk2
    · rw [if_neg hc] at h; cases h
      intro k hk1 hk2; omega

/-- Completeness: if the exit condition holds after `fuel` further
increments, the fuelled search does not run out. -/
lemma setOuterLoopsAux_isSome :
    ∀ (fuel : ℕ) (sd : SoftDelay),
      ¬ (({ sd with outer_loops := sd.outer_loops + fuel }).actual_time < sd.delay_time) →
      ∃ sd', setOuterLoopsAux fuel sd = some sd' := by
  intro fuel
  induction fuel with
  | zero =>
    intro sd h
    have h' : ¬ (sd.actual_time < sd.delay_time) := h
    rw [setOuterLoopsAux]
    exact ⟨sd, if_neg h'⟩
  | succ f ih =>
    intro sd h
    rw [setOuterLoopsAux]
    by_cases hc : sd.actual_time < sd.delay_time
    · rw [if_pos hc]
      apply ih
      have e : sd.outer_loops + (f + 1) = sd.outer_loops + 1 + f := by omega
      rw [e] at h
      exact h
    · rw [if_neg hc]; exact ⟨sd, rfl⟩

/-- Exact characterisation: if `N` is the first outer-loop count (from the
current one) satisfying the exit condition, and the fuel reaches it, the
search stops exactly at `N`. -/
lemma setOuterLoopsAux_exact :
    ∀ (fuel : ℕ) (sd : SoftDelay) (N : ℕ),
      sd.outer_loops ≤ N → N - sd.outer_loops ≤ fuel →
      ¬ (({ sd with outer_loops := N }).actual_time < sd.delay_time) →
      (∀ k, sd.outer_loops ≤ k → k < N →
        ({ sd with outer_loops := k }).actual_time < sd.delay_time) →
      setOuterLoopsAux fuel sd = some { sd with outer_loops := N } := by
  intro fuel
  induction fuel with
  | zero =>
    intro sd N h1 h2 hexit _
    have hN : N = sd.outer_loops := by omega
    subst hN
    have h' : ¬ (sd.actual_time < sd.delay_time) := hexit
    rw [setOuterLoopsAux, if_neg h']
  | succ f ih =>
    intro sd N h1 h2 hexit hmin
    rw [setOuterLoopsAux]
    by_cases ho : sd.outer_loops = N
    · have h' : ¬ (sd.actual_time < sd.delay_time) := by
        subst ho; exact hexit
      rw [if_neg h']
      subst ho; rfl
    · have hlt : sd.outer_loops < N := lt_of_le_of_ne h1 ho
      have hc : sd.actual_time < sd.delay_time :=
        hmin sd.outer_loops (le_refl _) hlt
      rw [if_pos hc]
      have := ih { sd with outer_loops := sd.outer_loops + 1 } N
        (by show sd.outer_loops + 1 ≤ N; omega)
        (by show N - (sd.outer_loops + 1) ≤ f; omega)
        hexit
        (fun k hk1 hk2 => hmin k (le_trans (Nat.le_succ _) hk1) hk2)
      exact this

/-! ### Monotonicity of the exact cost in the outer-loop count -/

/-- `register_count` does not depend on `outer_loops`. -/
lemma register_count_update (sd : SoftDelay) (n : ℕ) :
    ({ sd with outer_loops := n }).register_count = sd.register_count := rfl

/-- With a positive clock speed, the exact elapsed time is monotone in the
outer-loop count. -/
lemma actual_time_update_le (sd : SoftDelay) (hclk : 0 < sd.clk_speed)
    {m n : ℕ} (h : m ≤ n) :
    ({ sd with outer_loops := m }).actual_time ≤
      ({ sd with outer_loops := n }).actual_time := by
  obtain ⟨clk, cy, dt, o⟩ := sd
  have hclk' : (0:ℚ) < clk := hclk
  have hd : (0:ℚ) < clk * 10 ^ 6 := by positivity
  show (SoftDelay.mk clk cy dt m).actual_time ≤ (SoftDelay.mk clk cy dt n).actual_time
  simp only [SoftDelay.actual_time, SoftDelay.actual_cycles, SoftDelay.actual_i]
  set rc := (SoftDelay.mk clk cy dt n).register_count with hrc
  rw [show (SoftDelay.mk clk cy dt m).register_count = rc from rfl]
  rw [div_le_div_iff_of_pos_right hd]
  have h1 : 256 ^ (rc - 1) * 2 * m ≤ 256 ^ (rc - 1) * 2 * n :=
    Nat.mul_le_mul_left _ h
  exact_mod_cast Nat.cast_le.mpr (Nat.mul_le_mul_right cy (by omega))

/-- With a positive clock speed and a positive per-instruction cycle cost,
the exact elapsed time is strictly increasing in the outer-loop count. -/
lemma actual_time_update_lt (sd : SoftDelay) (hclk : 0 < sd.clk_speed)
    (hcy : 0 < sd.cycles_per_instr) {m n : ℕ} (h : m < n) :
    ({ sd with outer_loops := m }).actual_time <
      ({ sd with outer_loops := n }).actual_time := by
  obtain ⟨clk, cy, dt, o⟩ := sd
  have hclk' : (0:ℚ) < clk := hclk
  have hcy' : 0 < cy := hcy
  have hd : (0:ℚ) < clk * 10 ^ 6 := by positivity
  show (SoftDelay.mk clk cy dt m).actual_time < (SoftDelay.mk clk cy dt n).actual_time
  simp only [SoftDelay.actual_time, SoftDelay.actual_cycles, SoftDelay.actual_i]
  set rc := (SoftDelay.mk clk cy dt n).register_count with hrc
  rw [show (SoftDelay.mk clk cy dt m).register_count = rc from rfl]
  rw [div_lt_div_iff_of_pos_right hd]
  have h1 : 256 ^ (rc - 1) * 2 * m ≤ 256 ^ (rc - 1) * 2 * n :=
    Nat.mul_le_mul_left _ (le_of_lt h)
  have h2 : rc + 256 ^ (rc - 1) * 2 * m + m * 2
      < rc + 256 ^ (rc - 1) * 2 * n + n * 2 := by omega
  exact_mod_cast Nat.cast_lt.mpr ((Nat.mul_lt_mul_right hcy').mpr h2)

/-! ### Divergence of the search for negative clock speeds -/

/-- With a negative clock speed the exact elapsed time is never positive. -/
lemma actual_time_nonpos (sd : SoftDelay) (h : sd.clk_speed < 0) :
    sd.actual_time ≤ 0 := by
  have hd : sd.clk_speed * 10 ^ 6 ≤ 0 := by nlinarith
  show (sd.actual_cycles : ℚ) / (sd.clk_speed * 10 ^ 6) ≤ 0
  exact div_nonpos_iff.mpr (Or.inl ⟨Nat.cast_nonneg _, hd⟩)

/-- With a negative clock speed and a positive target delay the source's
`while` loop never exits: the fuelled search fails for every fuel. -/
lemma setOuterLoopsAux_none_of_neg :
    ∀ (fuel : ℕ) (sd : SoftDelay), sd.clk_speed < 0 → 0 < sd.delay_time →
      setOuterLoopsAux fuel sd = none := by
  intro fuel
  induction fuel with
  | zero =>
    intro sd h1 h2
    rw [setOuterLoopsAux, if_pos (lt_of_le_of_lt (actual_time_nonpos sd h1) h2)]
  | succ f ih =>
    intro sd h1 h2
    rw [setOuterLoopsAux, if_pos (lt_of_le_of_lt (actual_time_nonpos sd h1) h2)]
    exact ih _ h1 h2

/-! ### Hexadecimal rendering lemmas -/

/-- `hexDigitChar` maps `0..15` into the sixteen lowercase hex digits. -/
lemma hexDigitChar_mem (n : ℕ) (h : n < 16) : hexDigitChar n ∈ hexDigits := by
  interval_cases n <;> decide

/-- Every character produced by `natToHexAux` is a lowercase hex digit. -/
lemma natToHexAux_mem :
    ∀ (fuel n : ℕ) (c : Char), c ∈ natToHexAux fuel n → c ∈ hexDigits := by
  intro fuel
  induction fuel with
  | zero =>
    intro n c hc
    simp [natToHexAux] at hc
  | succ f ih =>
    intro n c hc
    rw [natToHexAux] at hc
    by_cases h : n < 16
    · rw [if_pos h] at hc
      simp at hc
      subst hc
      exact hexDigitChar_mem n h
    · rw [if_neg h] at hc
      rcases List.mem_append.1 hc with h1 | h1
      · exact ih _ _ h1
      · simp at h1
        subst h1
        exact hexDigitChar_mem _ (Nat.mod_lt _ (by norm_num))

/-- `natToHexAux` with its standard fuel emits at least one digit. -/
lemma natToHexAux_ne_nil (n : ℕ) : natToHexAux (n + 1) n ≠ [] := by
  rw [natToHexAux]
  by_cases h : n < 16
  · rw [if_pos h]; simp
  · rw [if_neg h]; simp

/-! ### Concrete runs shared by several claims -/

/-- At 10 MHz and an 8-second target, the search settles at 306 outer
loops (register count 3): past the 8-bit bound, with no guard in the
source. -/
lemma search_result_eight_seconds :
    (SoftDelay.init 10 2 8).set_outer_loops = some (SoftDelay.mk 10 2 8 306) := by
  with_unfolding_all decide

/-! ### The claims -/

/-- C1: for every request with positive clock speed and positive target
delay, the outer-loop search terminates, and the exact elapsed time of the
resulting loop configuration is at least the requested delay — the
generated loop never under-delays. -/
theorem sdelay_never_under_delays (clk : ℚ) (c : ℕ) (dt : ℚ)
    (hclk : 0 < clk) (hdt : 0 < dt) :
    ∃ sd, (SoftDelay.init clk c dt).set_outer_loops = some sd ∧
      dt ≤ sd.actual_time := by
  have hd : (0:ℚ) < clk * 10 ^ 6 := by positivity
  have hv : dt * clk * 10 ^ 6 / 4 ≤
      ((Int.ceil (dt * clk * 10 ^ 6 / 4)).toNat : ℚ) := by
    have hnn : (0:ℚ) ≤ dt * clk * 10 ^ 6 / 4 := by positivity
    have h2 : (0:ℤ) ≤ Int.ceil (dt * clk * 10 ^ 6 / 4) := Int.ceil_nonneg hnn
    have h1 := Int.le_ceil (dt * clk * 10 ^ 6 / 4)
    rw [← Int.toNat_of_nonneg h2] at h1
    exact_mod_cast h1
  have hexit : ¬ (({ SoftDelay.init clk c dt with
      outer_loops := (SoftDelay.init clk c dt).outer_loops +
        (SoftDelay.init clk c dt).searchFuel }).actual_time <
      (SoftDelay.init clk c dt).delay_time) := by
    rw [not_lt]
    show dt ≤ (SoftDelay.mk clk 2 dt
      (1 + ((Int.ceil (dt * clk * 10 ^ 6 / 4)).toNat + 1))).actual_time
    set N : ℕ := 1 + ((Int.ceil (dt * clk * 10 ^ 6 / 4)).toNat + 1) with hN
    set rc : ℕ := (SoftDelay.mk clk 2 dt N).register_count with hrc
    rw [show (SoftDelay.mk clk 2 dt N).actual_time
        = (((rc + 256 ^ (rc - 1) * 2 * N + N * 2) * 2 : ℕ) : ℚ) / (clk * 10 ^ 6)
        from rfl]
    rw [le_div_iff₀ hd]
    have hpow : 1 ≤ 256 ^ (rc - 1) := Nat.one_le_pow _ _ (by norm_num)
    have h8 : 8 * N ≤ (rc + 256 ^ (rc - 1) * 2 * N + N * 2) * 2 := by
      have h2 : 2 * N ≤ 256 ^ (rc - 1) * 2 * N := by
        calc 2 * N = 1 * (2 * N) := by ring
          _ ≤ 256 ^ (rc - 1) * (2 * N) := Nat.mul_le_mul_right _ hpow
          _ = 256 ^ (rc - 1) * 2 * N := by ring
      omega
    have hcast : ((8 * N : ℕ) : ℚ)
        ≤ (((rc + 256 ^ (rc - 1) * 2 * N + N * 2) * 2 : ℕ) : ℚ) :=
      Nat.cast_le.mpr h8
    have hNQ : ((Int.ceil (dt * clk * 10 ^ 6 / 4)).toNat : ℚ) + 2 = (N : ℚ) := by
      rw [hN]; push_cast; ring
    calc dt * (clk * 10 ^ 6) = 4 * (dt * clk * 10 ^ 6 / 4) := by ring
      _ ≤ 8 * (N : ℚ) := by
          have := Nat.cast_nonneg (α := ℚ) (Int.ceil (dt * clk * 10 ^ 6 / 4)).toNat
          linarith [hNQ]
      _ = ((8 * N : ℕ) : ℚ) := by push_cast; ring
      _ ≤ _ := hcast
  obtain ⟨sd, hsd⟩ :=
    setOuterLoopsAux_isSome (SoftDelay.init clk c dt).searchFuel
      (SoftDelay.init clk c dt) hexit
  exact ⟨sd, hsd, setOuterLoopsAux_some_delay _ _ _ hsd⟩

/-- C1 witness: the 10 MHz, 2-second request from the source's `__main__`
block. -/
theorem sdelay_never_under_delays_witness :
    ∃ sd, (SoftDelay.init 10 2 2).set_outer_loops = some sd ∧
      (2:ℚ) ≤ sd.actual_time :=
  sdelay_never_under_delays 10 2 2 (by norm_num) (by norm_num)

/-- C2: the generated text is independent of the cycles-per-instruction
value passed to the constructor — the constructor discards the argument
and hardcodes the per-instruction cycle cost to 2, so two invocations
differing only in that argument produce identical output. -/
theorem generate_independent_of_cycles_arg (clk dt : ℚ) (c1 c2 : ℕ) :
    (SoftDelay.init clk c1 dt).generate = (SoftDelay.init clk c2 dt).generate :=
  rfl

/-- C3 (code bug, at clock 10 MHz, cycles 2, delay 8 s): the source has no
guard on the outer-loop search, so `outer_loops` reaches 306 and the last
register initial value becomes `256 - 306 = -50`, outside `[0, 255]`.  The
structural parts of the claim (length = register count, inner registers 0,
last entry `256 - outer_loops`) do hold at this run. -/
theorem register_array_range_violation :
    ∃ sd, (SoftDelay.init 10 2 8).set_outer_loops = some sd ∧
      sd.outer_loops = 306 ∧
      sd.register_array = [0, 0, -50] ∧
      sd.register_array.length = sd.register_count ∧
      ∃ v ∈ sd.register_array, v < 0 := by
  refine ⟨SoftDelay.mk 10 2 8 306, search_result_eight_seconds, rfl, ?_, ?_, ?_⟩
  · with_unfolding_all decide
  · with_unfolding_all decide
  · with_unfolding_all decide

/-- C4 counterexample: at clock 10 MHz, cycles 2, delay 0.002 s, the
capacity solver returns 2 registers, not 1 (the estimated 10000 dummy
instructions exceed the 256 iterations one register can represent). -/
theorem two_ms_register_count_not_one :
    (SoftDelay.init 10 2 (1/500)).register_count ≠ 1 := by
  with_unfolding_all decide

/-- C4 as amended: at clock 10 MHz, cycles 2, delay 0.002 s, the capacity
solver returns 2 registers, and the emitted text contains exactly 2
register-load lines, the loop label, and 4 increment/branch lines besides
the header. -/
theorem two_ms_scenario :
    (SoftDelay.init 10 2 (1/500)).register_count = 2 ∧
    ∃ s, (SoftDelay.init 10 2 (1/500)).generate = some s ∧
      (textLines s).countP isLoadLine = 2 ∧
      (textLines s).countP isLabelLine = 1 ∧
      (textLines s).countP isInstrLine = 4 :=
  ⟨by with_unfolding_all decide,
    _, by with_unfolding_all rfl, by with_unfolding_all decide,
    by with_unfolding_all decide, by with_unfolding_all decide⟩

/-- C5 (code bug, at clock 10 MHz, cycles 2, delay 8 s): the outer-loop
search exceeds the 256-repeat bound (reaching 306) but the source has no
recovery path: the capacity solver is not re-run, the register count stays
at 3, and the search returns normally instead of resizing or raising. -/
theorem outer_search_no_resize_recovery :
    ∃ sd, (SoftDelay.init 10 2 8).set_outer_loops = some sd ∧
      256 < sd.outer_loops ∧
      sd.register_count = (SoftDelay.init 10 2 8).register_count ∧
      sd.register_count = 3 := by
  refine ⟨SoftDelay.mk 10 2 8 306, search_result_eight_seconds, by norm_num, ?_, ?_⟩
  · with_unfolding_all decide
  · with_unfolding_all decide

/-- C6 counterexample: a non-positive (zero) target delay is not rejected:
the constructor performs no validation, the search exits at once with
`outer_loops = 1`, and full output is generated. -/
theorem nonpositive_delay_not_rejected :
    ∃ s, (SoftDelay.init 10 2 0).generate = some s ∧
      (SoftDelay.init 10 2 0).set_outer_loops = some (SoftDelay.mk 10 2 0 1) :=
  ⟨_, by with_unfolding_all rfl, by with_unfolding_all decide⟩

/-- C6 as amended: no input validation exists.  A negative target delay is
accepted and produces output; a zero clock speed is not rejected before
computation (the capacity solver still runs, returning 1; in the source the
failure is a later ZeroDivisionError inside `actual_time`, not a
DomainError); a negative clock speed with a positive delay makes the
outer-loop search run forever instead of raising. -/
theorem no_input_validation :
    (∃ s, (SoftDelay.init 10 2 (-1)).generate = some s) ∧
    (SoftDelay.init 0 2 1).register_count = 1 ∧
    ∀ fuel, setOuterLoopsAux fuel (SoftDelay.init (-10) 2 1) = none := by
  refine ⟨⟨_, by with_unfolding_all rfl⟩, by with_unfolding_all decide, ?_⟩
  intro fuel
  exact setOuterLoopsAux_none_of_neg fuel _
    (by show (-10:ℚ) < 0; norm_num) (by show (0:ℚ) < 1; norm_num)

/-- C7: for every state with register count at least 1, the exact-cost
evaluator computes `actual_i = register_count + 256^(register_count-1) * 2 *
outer_loops + outer_loops * 2`, `actual_cycles = actual_i *
cycles_per_instr`, and `actual_time = actual_cycles / (clk_speed * 10^6)`. -/
theorem exact_cost_formulas (sd : SoftDelay) (h : 1 ≤ sd.register_count) :
    sd.actual_i = sd.register_count
        + 256 ^ (sd.register_count - 1) * 2 * sd.outer_loops
        + sd.outer_loops * 2 ∧
    sd.actual_cycles = sd.actual_i * sd.cycles_per_instr ∧
    sd.actual_time = (sd.actual_cycles : ℚ) / (sd.clk_speed * 10 ^ 6) :=
  ⟨rfl, rfl, rfl⟩

/-- C7 witness: the cost formulas at the state 10 MHz, 2 cycles, 2 s,
5 outer loops (register count 3, so the hypothesis holds). -/
theorem exact_cost_formulas_witness :
    (SoftDelay.mk 10 2 2 5).actual_i = (SoftDelay.mk 10 2 2 5).register_count
        + 256 ^ ((SoftDelay.mk 10 2 2 5).register_count - 1) * 2
          * (SoftDelay.mk 10 2 2 5).outer_loops
        + (SoftDelay.mk 10 2 2 5).outer_loops * 2 ∧
    (SoftDelay.mk 10 2 2 5).actual_cycles
        = (SoftDelay.mk 10 2 2 5).actual_i * (SoftDelay.mk 10 2 2 5).cycles_per_instr ∧
    (SoftDelay.mk 10 2 2 5).actual_time
        = ((SoftDelay.mk 10 2 2 5).actual_cycles : ℚ)
          / ((SoftDelay.mk 10 2 2 5).clk_speed * 10 ^ 6) :=
  exact_cost_formulas (SoftDelay.mk 10 2 2 5) (by with_unfolding_all decide)

/-- C8 counterexample: at clock 10 MHz, cycles 2, delay `1/10000000` s the
search accepts its starting value `outer_loops = 1`; reducing it by one
(to 0, same register count) still does not make the elapsed time drop
below the requested delay, so the claimed minimality fails for requests
satisfied at the search's starting point. -/
theorem minimality_fails_at_one :
    (SoftDelay.init 10 2 (1/10000000)).set_outer_loops
        = some (SoftDelay.mk 10 2 (1/10000000) 1) ∧
      ¬ ((SoftDelay.mk 10 2 (1/10000000) 0).actual_time < 1/10000000) :=
  ⟨by with_unfolding_all rfl, by with_unfolding_all decide⟩

/-- C8 as amended: whenever the chosen outer-repeat count exceeds the
search's starting value 1, replacing it with a value one smaller (same
register count) makes the exact elapsed time strictly less than the
requested delay. -/
theorem minimality_above_one (clk : ℚ) (c : ℕ) (dt : ℚ) (sd : SoftDelay)
    (h : (SoftDelay.init clk c dt).set_outer_loops = some sd)
    (h1 : 1 < sd.outer_loops) :
    ({ sd with outer_loops := sd.outer_loops - 1 }).actual_time < dt := by
  have hmin := setOuterLoopsAux_some_min _ _ _ h
  obtain ⟨hsh, hle⟩ := setOuterLoopsAux_some_shape _ _ _ h
  have hk := hmin (sd.outer_loops - 1)
    (by show 1 ≤ sd.outer_loops - 1; omega) (by omega)
  rw [hsh]
  exact hk

/-- C8 witness: the 2 ms request, whose search stops at 20 outer loops. -/
theorem minimality_above_one_witness :
    ({ SoftDelay.mk 10 2 (1/500) 20 with
        outer_loops := (SoftDelay.mk 10 2 (1/500) 20).outer_loops - 1 }).actual_time
      < (1/500 : ℚ) :=
  minimality_above_one 10 2 (1/500) (SoftDelay.mk 10 2 (1/500) 20)
    (by with_unfolding_all rfl) (by decide)

/-- C9: with clock speed and cycles-per-instruction positive and all other
fields held fixed (register count cannot change, as it does not read
`outer_loops`), the exact elapsed time is strictly increasing in the
outer-repeat count. -/
theorem actual_time_strictly_increasing (sd : SoftDelay)
    (hclk : 0 < sd.clk_speed) (hcy : 0 < sd.cycles_per_instr) (n : ℕ) :
    ({ sd with outer_loops := n }).actual_time <
      ({ sd with outer_loops := n + 1 }).actual_time :=
  actual_time_update_lt sd hclk hcy (Nat.lt_succ_self n)

/-- C9 witness: strict growth from 5 to 6 outer loops at 10 MHz. -/
theorem actual_time_strictly_increasing_witness :
    ({ SoftDelay.mk 10 2 2 1 with outer_loops := 5 }).actual_time <
      ({ SoftDelay.mk 10 2 2 1 with outer_loops := 5 + 1 }).actual_time :=
  actual_time_strictly_increasing (SoftDelay.mk 10 2 2 1)
    (by norm_num) (by norm_num) 5

/-- C10 counterexample: in the 2 ms run the inner register's load line is
`LOAD S0, 0x0` — the value field `0x0` has a single hex digit after the
`0x` prefix (Python's `{:#x}` pads to no minimum width), refuting the
claimed two-or-more-digit form. -/
theorem single_digit_hex_emitted :
    ∃ s, (SoftDelay.init 10 2 (1/500)).generate = some s ∧
      ("LOAD S0, 0x0").data ∈ textLines s ∧
      (("LOAD S0, 0x0").data.drop 11).length = 1 :=
  ⟨_, by with_unfolding_all rfl, by with_unfolding_all decide, by decide⟩

/-- C10 as amended: every register-load line writes a nonnegative initial
value as a `0x`-prefixed lowercase hexadecimal of one or more digits (no
padding to two). -/
theorem load_line_hex_format (i : ℕ) (v : ℤ) (h : 0 ≤ v) :
    ∃ ds : List Char, ds ≠ [] ∧ (∀ c ∈ ds, c ∈ hexDigits) ∧
      loadLine i v = "LOAD S" ++ natToHex i ++ ", " ++ ("0x" ++ String.mk ds) ++ "\n" := by
  refine ⟨natToHexAux (v.toNat + 1) v.toNat, natToHexAux_ne_nil _,
    fun c hc => natToHexAux_mem _ _ c hc, ?_⟩
  unfold loadLine pyHex
  rw [if_neg (not_lt.mpr h)]
  rfl

/-- C10 witness: the outer register's load line of the 2 ms run
(value 236 = `0xec`). -/
theorem load_line_hex_format_witness :
    ∃ ds : List Char, ds ≠ [] ∧ (∀ c ∈ ds, c ∈ hexDigits) ∧
      loadLine 1 236 = "LOAD S" ++ natToHex 1 ++ ", " ++ ("0x" ++ String.mk ds) ++ "\n" :=
  load_line_hex_format 1 236 (by decide)
